import Mathlib

/-!
# Verification of the B2B lead-generation enrichment pipeline

Shallow embedding of the Python sources

  * `src/scripts/enricher.py`   — `CompanyEnricher` (spaCy-based feature extraction),
  * `src/scripts/pipeline.py`   — `run_pipeline` (batch orchestration, SQLite I/O elided),
  * `src/scripts/email_composer.py` — `EmailComposer` (personalised e-mail generation),

together with proofs about the claims of the specification.

The spaCy model `ru_core_news_sm` is an external library: a processed document
is modelled abstractly as a value of type `Doc` (a list of sentences, each a
list of tokens carrying their lemma, plus raw text), and the tokenizer
`self.nlp(text.lower())` is an arbitrary function `String → Except String Doc`
passed as a parameter (`Except.error` models a raised exception).  Python's
`str.lower` applied to token lemmas is modelled by `lowerL` (`Char.toLower`
character-wise; Python also lowercases non-ASCII letters, which does not matter
here because the configured keyword lists are already lowercase and the results
proved below quantify over arbitrary documents).
-/

namespace LeadGen

/-- A spaCy token, reduced to the single attribute the enricher reads:
`token.lemma_`. -/
structure Token where
  lemma_ : String
deriving DecidableEq, Repr

/-- A spaCy sentence (`doc.sents` element): its raw text (`sent.text`) and its
tokens in order. -/
structure Sentence where
  text : String
  toks : List Token
deriving DecidableEq, Repr

/-- A spaCy document: raw text (`doc.text`) and the sentences.  Iterating
`for token in doc` traverses the tokens of the sentences in order
(spaCy sentences partition the document's tokens). -/
structure Doc where
  text : String
  sents : List Sentence
deriving DecidableEq, Repr

/-- The token stream of a document (`for token in doc`). -/
def Doc.toks (d : Doc) : List Token :=
  (d.sents.map Sentence.toks).flatten

/-- Python `str.lower()` on a lemma (see the file header for the modelling
note on non-ASCII letters). -/
def lowerL (s : String) : String :=
  String.mk (s.toList.map Char.toLower)

/-- `self.imp_kws` from `CompanyEnricher.setup_keys` (enricher.py lines 44-50). -/
def impKws : List String :=
  ["импорт", "импортирование", "ввоз", "ввозить",
   "импортировать", "импортёр", "закупка",
   "закупать", "поставляем из", "поставка",
   "поставлять", "дистрибуция",
   "дистрибьютор", "поставщик",
   "оптовый", "оптом", "опт", "реэкспорт",
   "экспорт/импорт"]

/-- `self.negations` (enricher.py line 51). -/
def negations : List String :=
  ["не", "нет", "без", "ни", "никогда", "никак"]

/-- `self.electronics` (enricher.py lines 52-60). -/
def electronics : List String :=
  ["микросхема", "интегральная схема", "ics", "чип",
   "плата", "контроллер",
   "процессор",
   "память", "модуль",
   "радиодеталь", "конденсатор", "резистор",
   "транзистор", "адаптер", "разъём", "дисплей",
   "экран",
   "смартфон", "телевизор", "ноутбук", "компьютер",
   "компонент", "сборка", "электроника"]

/-- `self.countries` (enricher.py lines 61-64). -/
def countries : List String :=
  ["китай", "кндр", "китайская народная республика",
   "тайвань", "корея", "южная корея", "юж. корея",
   "япония", "германия", "польша", "сша",
   "соединенные штаты", "великобритания", "европа"]

/-- `self.financial_lemmas` (enricher.py lines 65-67). -/
def financialLemmas : List String :=
  ["миллион", "миллиард", "тысяча",
   "рубль", "доллар", "евро",
   "млн", "млрд", "тыс"]

/-- The local `indicators` list of `_find_indicators` (enricher.py lines 128-133). -/
def indicatorLemmas : List String :=
  ["поставка", "поставок", "оборот", "объём", "объем",
   "контракт", "контракты", "договор", "договоры",
   "реализовано", "продано", "продажи", "продажа",
   "клиент", "клиенты", "партнёр", "партнёры", "поставщ",
   "закупк", "закупки", "заказ", "заказы", "проект",
   "проекты", "экспорт", "импор"]

/-- The local `time_indicators` list of `_detect_recent_activity`
(enricher.py lines 157-158). -/
def timeIndicators : List String :=
  ["последний год", "в этом году", "за последний год",
   "недавно", "в прошлом году", "2025"]

/-- Python's substring test `needle in haystack` on strings. -/
def substrMem (needle haystack : String) : Bool :=
  decide (needle.toList <:+: haystack.toList)

/-- Python `' ' in keyword`. -/
def hasSpace (s : String) : Bool :=
  s.toList.contains ' '

/-- The sentence's lemma sequence `[token.lemma_.lower() for token in sent]`
(enricher.py line 82). -/
def sentLemmas (s : Sentence) : List String :=
  s.toks.map (fun t => lowerL t.lemma_)

/-- The negation test of `_detect_importer` at position `i`
(enricher.py lines 91-97): `sent_lemmas[i-1]` or `sent_lemmas[i-2]` is a
negation lemma.  Out-of-range reads cannot happen (`i ≥ 1` resp. `i ≥ 2` is
checked first); the `getD` default `""` is never a negation. -/
def hasNegBefore (lemmas : List String) (i : Nat) : Bool :=
  (decide (1 ≤ i) && negations.contains (lemmas.getD (i - 1) "")) ||
  (decide (2 ≤ i) && negations.contains (lemmas.getD (i - 2) ""))

/-- The inner `for i, lemma in enumerate(sent_lemmas)` scan of
`_detect_importer` (enricher.py lines 89-100) for one single-word keyword:
true iff some position holds the keyword's lemma and is not negated. -/
def unsuppressedMatch (lemmas : List String) (kw : String) : Bool :=
  (List.range lemmas.length).any fun i =>
    lemmas.getD i "" == lowerL kw && !hasNegBefore lemmas i

/-- `CompanyEnricher._detect_importer` (enricher.py lines 69-101),
parameterised by the keyword list (the instance uses `impKws`). -/
def detectImporterWith (kws : List String) (sents : List Sentence) : Bool :=
  sents.any fun sent =>
    kws.any fun kw =>
      if hasSpace kw then substrMem kw sent.text
      else unsuppressedMatch (sentLemmas sent) kw

/-- `CompanyEnricher._detect_importer` on a document. -/
def detectImporter (d : Doc) : Bool :=
  detectImporterWith impKws d.sents

/-- `CompanyEnricher._extract` (enricher.py lines 103-117): collect the
lowered lemmas that occur in `keys`, deduplicated.  Python's `list(set(found))`
returns the distinct elements in an unspecified order; `List.dedup` is the
deterministic representative (same elements, no duplicates). -/
def extract (d : Doc) (keys : List String) : List String :=
  ((d.toks.map fun t => lowerL t.lemma_).filter fun l => keys.contains l).dedup

/-- `CompanyEnricher._find_indicators` (enricher.py lines 119-134):
`sum(1 for token in doc if token.lemma_.lower() in indicators)`. -/
def findIndicators (d : Doc) : Nat :=
  d.toks.foldl (fun n t => if indicatorLemmas.contains (lowerL t.lemma_) then n + 1 else n) 0

/-- `CompanyEnricher._has_financial` (enricher.py lines 136-146): the set of
raw lemmas (`token.lemma_`, not lowered here) meets `financial_lemmas`. -/
def hasFinancial (d : Doc) : Bool :=
  d.toks.any fun t => financialLemmas.contains t.lemma_

/-- `CompanyEnricher._detect_recent_activity` (enricher.py lines 148-159). -/
def detectRecentActivity (d : Doc) : Bool :=
  timeIndicators.any fun ind => substrMem ind d.text

/-- The feature dictionary returned by `CompanyEnricher.analyze` /
`CompanyEnricher._empty`. -/
structure FeatureRecord where
  company_id : Nat
  is_importer : Bool
  product_mentions : List String
  mentioned_countries : List String
  activity_indicators : Nat
  processed : Bool
  has_financial_indicators : Bool
  recent_activity : Bool
deriving DecidableEq, Repr

/-- `CompanyEnricher._empty` (enricher.py lines 161-179): the all-default
record. -/
def emptyRec (companyId : Nat) : FeatureRecord :=
  { company_id := companyId
    is_importer := false
    product_mentions := []
    mentioned_countries := []
    activity_indicators := 0
    processed := false
    has_financial_indicators := false
    recent_activity := false }

/-- `CompanyEnricher.analyze` (enricher.py lines 181-219).  `text = none`
models Python `None`; `nlp` models the composite `self.nlp(text.lower())`
(both `str.lower` and the spaCy pipeline are external library calls), with
`Except.error` modelling a raised exception, which `analyze` catches. -/
def analyze (nlp : String → Except String Doc) (minLen : Nat)
    (text : Option String) (companyId : Nat) : FeatureRecord :=
  match text with
  | none => emptyRec companyId
  | some t =>
    if t = "" || t.length < minLen then emptyRec companyId
    else
      match nlp t with
      | .error _ => emptyRec companyId
      | .ok doc =>
        { company_id := companyId
          is_importer := detectImporter doc
          product_mentions := extract doc electronics
          mentioned_countries := extract doc countries
          activity_indicators := findIndicators doc
          processed := true
          has_financial_indicators := hasFinancial doc
          recent_activity := detectRecentActivity doc }

end LeadGen

/-! ## Pipeline (`src/scripts/pipeline.py`)

The SQLite reads/writes and directory creation of `run_pipeline` are I/O and
are elided; the batch loop and the emptiness check (pipeline.py lines 52-67)
are embedded.  A source row (`df.itertuples` element) either provides the pair
`(company.news, company.inn)` or raises `AttributeError` on field access
(a malformed upstream row), modelled by `Except Unit (Option String × Nat)`.
-/

namespace LeadGen

/-- The per-record loop of `run_pipeline` (pipeline.py lines 52-64): each
well-formed row contributes `enricher.analyze(text, company_id)`; a row whose
field access raises `AttributeError` is skipped (`continue`). -/
def processRows (nlp : String → Except String Doc) (minLen : Nat)
    (rows : List (Except Unit (Option String × Nat))) : List FeatureRecord :=
  rows.filterMap fun r =>
    match r with
    | .ok (text, companyId) => some (analyze nlp minLen text companyId)
    | .error _ => none

/-- `run_pipeline`'s batch core (pipeline.py lines 52-67): raise `ValueError`
(modelled by `Except.error`) exactly when the collected `results` list is
empty. -/
def runPipeline (nlp : String → Except String Doc) (minLen : Nat)
    (rows : List (Except Unit (Option String × Nat))) :
    Except String (List FeatureRecord) :=
  let results := processRows nlp minLen rows
  if results = [] then .error "Не удалось обработать ни одной компании"
  else .ok results

/-- Whether an `Except` value is an error (a raised exception in the model). -/
def isErr {ε α : Type} : Except ε α → Bool
  | .error _ => true
  | .ok _ => false

/-- The list-column serialisation of `run_pipeline`
(pipeline.py lines 74-77): `", ".join(map(str, x))` for a list value `x`
(list elements are strings, so `str` is the identity). -/
def joinChars : List (List Char) → List Char
  | [] => []
  | [x] => x
  | x :: y :: ys => x ++ ',' :: ' ' :: joinChars (y :: ys)

/-- `", ".join` on strings (pipeline.py line 76, and the `", ".join(...)` in
`generate_email`, email_composer.py lines 66 and 71). -/
def pyJoin (l : List String) : String :=
  String.mk (joinChars (l.map String.toList))

end LeadGen

/-! ## E-mail composer (`src/scripts/email_composer.py`) -/

namespace LeadGen

/-- Python `str.split(',')`: cut at every comma; `"".split(',') == ['']`. -/
def splitOnComma : List Char → List (List Char)
  | [] => [[]]
  | c :: cs =>
    if c = ',' then [] :: splitOnComma cs
    else
      match splitOnComma cs with
      | [] => [[c]]
      | t :: ts => (c :: t) :: ts

/-- Python `str.strip()` (no argument): drop whitespace from both ends. -/
def pyStrip (s : List Char) : List Char :=
  ((s.dropWhile Char.isWhitespace).reverse.dropWhile Char.isWhitespace).reverse

/-- Python `str.strip("[]")`: drop `'['` and `']'` characters from both ends. -/
def stripBrackets (s : List Char) : List Char :=
  ((s.dropWhile fun c => c = '[' || c = ']').reverse.dropWhile
    fun c => c = '[' || c = ']').reverse

/-- `EmailComposer._parse_list` (email_composer.py lines 95-110) on the
character list of the input string. -/
def parseListChars (s : List Char) : List (List Char) :=
  if s = [] || s = ['[', ']'] then []
  else
    ((splitOnComma ((stripBrackets s).filter
        fun c => !(c = '\'' || c = '"'))).map pyStrip).filter (· ≠ [])

/-- `EmailComposer._parse_list` (email_composer.py lines 95-110):
`not list_str` on a string is the emptiness test; then strip the brackets,
delete quote characters, split on commas, strip each item and keep the
non-empty ones. -/
def parseList (s : String) : List String :=
  (parseListChars s.toList).map fun cs => String.mk cs

/-- The input row of `EmailComposer.generate_email` (email_composer.py
lines 47-56): the fields it reads from `company_data`.  `name = none` models
a missing key (the `.get` default); the list fields arrive as the serialised
strings stored by the pipeline. -/
structure CompanyData where
  name : Option String
  is_importer : Bool
  product_mentions : String
  mentioned_countries : String
  has_financial_indicators : Bool
  recent_activity : Bool
deriving DecidableEq, Repr

/-- The output of `generate_email` (`generated_at` is wall-clock time and is
not modelled). -/
structure EmailOut where
  subject : String
  body : String
  personalization_score : Nat
deriving DecidableEq, Repr

/-- `EmailComposer._generate_subject` (email_composer.py lines 112-131). -/
def generateSubject (senderCompany : String) (isImp : Bool)
    (products : List String) (score : Nat) : String :=
  if 5 ≤ score then
    match products with
    | p :: _ => "Оптимизация поставок " ++ p ++ ". Персональное предложение"
    | [] => "Специальное предложение для вашей компании"
  else if isImp then "Решения для импортёров. Снижение затрат до 20%"
  else "Предложение от " ++ senderCompany

/-- The `score >= 5` value proposition of `_generate_body`
(email_composer.py lines 154-162). -/
def vpHigh (senderCompany productOffering : String) : String :=
  senderCompany ++ " " ++
  "специализируется на " ++ productOffering ++ ". " ++
  "Учитывая специфику вашего бизнеса, мы можем предложить:\n\n" ++
  "+ Снижение затрат на логистику до 20%\n" ++
  "+ Оптимизацию таможенного оформления\n" ++
  "+ Надёжных партнёров для комплексных поставок\n\n"

/-- The `score >= 3` value proposition of `_generate_body`
(email_composer.py lines 163-171). -/
def vpMid (senderCompany productOffering : String) : String :=
  senderCompany ++ " помогает " ++
  "компаниям оптимизировать " ++ productOffering ++ ".\n\n" ++
  "Наши клиенты в среднем:\n" ++
  "+ Экономят до 15% на логистике\n" ++
  "+ Сокращают время доставки на 30%\n" ++
  "+ Минимизируют риски при импорте\n\n"

/-- The fallback value proposition of `_generate_body`
(email_composer.py lines 172-177). -/
def vpLow (senderCompany productOffering : String) : String :=
  senderCompany ++ " " ++
  "предлагает " ++ productOffering ++ ".\n\n" ++
  "Мы будем рады обсудить возможности сотрудничества.\n\n"

/-- The call-to-action block of `_generate_body` (email_composer.py
lines 179-183). -/
def ctaStr : String :=
  "Готовы рассказать о конкретных решениях " ++
  "для вашей компании.\n\n" ++
  "Удобно ли вам созвониться на этой неделе?\n\n"

/-- The signature block of `_generate_body` (email_composer.py
lines 185-191). -/
def signatureStr (senderName senderCompany : String) : String :=
  "С уважением,\n" ++
  senderName ++ "\n" ++
  senderCompany ++ "\n" ++
  "Email: manager@example.com\n" ++
  "Тел: +7 (XXX) XXX-XX-XX"

/-- `EmailComposer._generate_body` (email_composer.py lines 133-193). -/
def generateBody (senderCompany senderName productOffering : String)
    (companyName : String) (facts : List String) (score : Nat) : String :=
  let greeting := "Здравствуйте, " ++ companyName ++ "!\n\n"
  let intro :=
    if facts ≠ [] then
      "Мы заметили, что вы " ++ pyJoin facts ++ ". " ++
      "Это делает наше предложение " ++
      "особенно актуальным для вас.\n\n"
    else "Мы внимательно изучили профиль вашей компании.\n\n"
  let valueProp :=
    if 5 ≤ score then vpHigh senderCompany productOffering
    else if 3 ≤ score then vpMid senderCompany productOffering
    else vpLow senderCompany productOffering
  greeting ++ intro ++ valueProp ++ ctaStr ++ signatureStr senderName senderCompany

/-- `EmailComposer.generate_email` (email_composer.py lines 28-93),
parameterised by the composer settings (`sender_company`, `sender_name`,
`product_offering`; constructor defaults `"Ваша Компания"`,
`"Менеджер по развитию"`, `"логистические решения для импортёров"`). -/
def generateEmail (senderCompany senderName productOffering : String)
    (cd : CompanyData) : EmailOut :=
  let name :=
    match cd.name with
    | none => "Уважаемые коллеги"
    | some n =>
      if n = "" || n = "N/A" || String.mk (pyStrip n.toList) = "" then
        "Уважаемые коллеги"
      else n
  let products := parseList cd.product_mentions
  let mentionedCountries := parseList cd.mentioned_countries
  let facts1 : List String :=
    if cd.is_importer then ["занимаетесь импортом"] else []
  let score1 : Nat := if cd.is_importer then 3 else 0
  let facts2 :=
    if products ≠ [] then
      facts1 ++ ["работаете с " ++ pyJoin (products.take 3)]
    else facts1
  let score2 := if products ≠ [] then score1 + 2 else score1
  let facts3 :=
    if mentionedCountries ≠ [] then
      facts2 ++ ["сотрудничаете с партнёрами из " ++
                 pyJoin (mentionedCountries.take 2)]
    else facts2
  let score3 := if mentionedCountries ≠ [] then score2 + 2 else score2
  let facts4 :=
    if cd.has_financial_indicators then
      facts3 ++ ["ведёте активную коммерческую деятельность"]
    else facts3
  let score4 := if cd.has_financial_indicators then score3 + 1 else score3
  let facts5 :=
    if cd.recent_activity then
      facts4 ++ ["развиваете бизнес в текущем году"]
    else facts4
  let score5 := if cd.recent_activity then score4 + 1 else score4
  { subject := generateSubject senderCompany cd.is_importer products score5
    body := generateBody senderCompany senderName productOffering name facts5 score5
    personalization_score := score5 }

/-- The specification's closed-form personalization score: the weighted sum
3·[importer] + 2·[products ≠ ∅] + 2·[countries ≠ ∅] + 1·[financial] +
1·[recent]. -/
def pScore (cd : CompanyData) : Nat :=
  (if cd.is_importer then 3 else 0) +
  (if parseList cd.product_mentions ≠ [] then 2 else 0) +
  (if parseList cd.mentioned_countries ≠ [] then 2 else 0) +
  (if cd.has_financial_indicators then 1 else 0) +
  (if cd.recent_activity then 1 else 0)

/-! ## Claim-side predicates -/

/-- The specification's suppression condition at position `i` of a sentence's
lemma sequence: the immediately preceding lemma, or the one before it, is a
negation lemma. -/
def NegatedAt (lemmas : List String) (i : Nat) : Prop :=
  (1 ≤ i ∧ lemmas.getD (i - 1) "" ∈ negations) ∨
  (2 ≤ i ∧ lemmas.getD (i - 2) "" ∈ negations)

/-- The specification's characterisation of importer evidence: some sentence
holds either a multi-word keyword as a substring of its raw text, or a
single-word keyword occurrence that is not suppressed by a preceding negation
lemma. -/
def ImporterEvidence (kws : List String) (sents : List Sentence) : Prop :=
  ∃ sent ∈ sents, ∃ kw ∈ kws,
    (hasSpace kw = true ∧ kw.toList <:+: sent.text.toList) ∨
    (hasSpace kw = false ∧
      ∃ i, i < (sentLemmas sent).length ∧
        (sentLemmas sent).getD i "" = lowerL kw ∧
        ¬ NegatedAt (sentLemmas sent) i)

/-- Strings that survive the pipeline's `", ".join` followed by the
templater's `_parse_list`: non-empty, free of commas, quotes and brackets,
and fixed by `strip()`.  Every configured extraction keyword satisfies this. -/
def CleanElem (s : List Char) : Prop :=
  s ≠ [] ∧
  (∀ c ∈ s, ¬(c = ',' ∨ c = '\'' ∨ c = '"' ∨ c = '[' ∨ c = ']')) ∧
  pyStrip s = s

instance (lemmas : List String) (i : Nat) : Decidable (NegatedAt lemmas i) := by
  unfold NegatedAt
  infer_instance

instance (s : List Char) : Decidable (CleanElem s) := by
  unfold CleanElem
  infer_instance

/-! ## Concrete fixtures for witnesses and counterexamples -/

/-- A document with no sentences (what a tokenizer may return). -/
def docEmpty : Doc := ⟨"", []⟩

/-- A tokenizer that always succeeds, returning the empty document. -/
def nlpOk : String → Except String Doc := fun _ => .ok docEmpty

/-- A tokenizer that always raises. -/
def nlpErr : String → Except String Doc := fun _ => .error "err"

/-- A sentence whose only import keyword occurrence is negated:
«мы не импортируем», lemmas `[мы, не, импортировать]`. -/
def sentNeg : Sentence :=
  ⟨"мы не импортируем", [⟨"мы"⟩, ⟨"не"⟩, ⟨"импортировать"⟩]⟩

/-- A sentence with an unsuppressed import keyword occurrence:
«мы импортируем», lemmas `[мы, импортировать]`. -/
def sentPos : Sentence :=
  ⟨"мы импортируем", [⟨"мы"⟩, ⟨"импортировать"⟩]⟩

/-- A document whose tokens carry three configured indicator lemmas, one
occurrence each. -/
def docInd : Doc :=
  ⟨"поставка оборот контракт",
   [⟨"поставка оборот контракт", [⟨"поставка"⟩, ⟨"оборот"⟩, ⟨"контракт"⟩]⟩]⟩

/-- A tokenizer returning `docInd` for every input. -/
def nlpInd : String → Except String Doc := fun _ => .ok docInd

/-- A Russian string of exactly 20 characters (passes the default length
guard). -/
def longText : String := "аааааааааааааааааааа"

/-- Default composer settings (the `EmailComposer.__init__` defaults). -/
def defSender : String := "Ваша Компания"

/-- Default `sender_name`. -/
def defName : String := "Менеджер по развитию"

/-- Default `product_offering`. -/
def defOffer : String := "логистические решения для импортёров"

/-- Record: importer with one product and no other facts (the specification's
worked example; scores 3 + 2 = 5). -/
def cdEx : CompanyData :=
  ⟨some "Тест", true, "чип", "", false, false⟩

/-- Record: importer with no other facts (scores 3). -/
def cdImpOnly : CompanyData :=
  ⟨some "Тест", true, "", "", false, false⟩

/-- Record: one product plus financial indicators, not an importer
(also scores 2 + 1 = 3). -/
def cdProdFin : CompanyData :=
  ⟨some "Тест", false, "чип", "", true, false⟩

end LeadGen

/-! ## Theorems -/

namespace LeadGen

/-- Helper: a conditional-increment fold counts the matching elements. -/
lemma foldl_count (p : Token → Bool) (l : List Token) (n : Nat) :
    l.foldl (fun m t => if p t then m + 1 else m) n = n + (l.filter p).length := by
  induction l generalizing n with
  | nil => simp
  | cons x xs ih =>
    by_cases h : p x
    · simp [h, ih]
      omega
    · simp [h, ih]

/-- C1: `analyze` returns the all-default record for null input, for empty or
too-short text (independently of the tokenizer — it is not invoked), and when
the tokenizer raises; in every other case the returned record has
`processed = true`.  A raised tokenizer error is caught and never reaches the
caller: `analyze` is total and returns the default record instead. -/
theorem C1_analyze_guards_and_catches
    (nlp nlp' : String → Except String Doc) (minLen : Nat) (t : String) (cid : Nat) :
    analyze nlp minLen none cid = emptyRec cid ∧
    ((t = "" ∨ t.length < minLen) →
      analyze nlp minLen (some t) cid = emptyRec cid ∧
      analyze nlp minLen (some t) cid = analyze nlp' minLen (some t) cid) ∧
    (∀ e, nlp t = Except.error e → analyze nlp minLen (some t) cid = emptyRec cid) ∧
    (∀ d, t ≠ "" → minLen ≤ t.length → nlp t = Except.ok d →
      (analyze nlp minLen (some t) cid).processed = true) := by
  refine ⟨rfl, ?_, ?_, ?_⟩
  · intro h
    have hg : (t = "" || decide (t.length < minLen)) = true := by
      rcases h with h | h
      · simp [h]
      · simp [h]
    constructor <;> simp [analyze, hg]
  · intro e he
    by_cases hg : (t = "" || decide (t.length < minLen)) = true
    · simp [analyze, hg]
    · simp [analyze, hg, he]
  · intro d hne hlen hok
    have hg : (t = "" || decide (t.length < minLen)) = false := by
      simp [hne, Nat.not_lt.mpr hlen]
    simp [analyze, hg, hok]

/-- C1 witness: concrete instances of each branch with concrete tokenizers. -/
theorem C1_witness :
    analyze nlpErr 20 none 1 = emptyRec 1 ∧
    analyze nlpErr 20 (some "short") 1 = emptyRec 1 ∧
    analyze nlpErr 20 (some longText) 1 = emptyRec 1 ∧
    (analyze nlpOk 20 (some longText) 1).processed = true :=
  ⟨(C1_analyze_guards_and_catches nlpErr nlpOk 20 "short" 1).1,
   ((C1_analyze_guards_and_catches nlpErr nlpOk 20 "short" 1).2.1
      (Or.inr (by decide))).1,
   (C1_analyze_guards_and_catches nlpErr nlpOk 20 longText 1).2.2.1 "err" rfl,
   (C1_analyze_guards_and_catches nlpOk nlpErr 20 longText 1).2.2.2 docEmpty
      (by decide) (by decide) rfl⟩

/-- C2: a record returned by `analyze` with `processed = false` is exactly the
all-default record — no returned record is partially populated. -/
theorem C2_processed_false_all_default
    (nlp : String → Except String Doc) (minLen : Nat) (text : Option String)
    (cid : Nat) (h : (analyze nlp minLen text cid).processed = false) :
    analyze nlp minLen text cid = emptyRec cid := by
  cases text with
  | none => rfl
  | some t =>
    by_cases hg : (t = "" || decide (t.length < minLen)) = true
    · simp [analyze, hg]
    · cases hnlp : nlp t with
      | error e => simp [analyze, hg, hnlp]
      | ok d => simp [analyze, hg, hnlp] at h

/-- C2 witness: the null-text record has `processed = false` and is the
all-default record. -/
theorem C2_witness : analyze nlpErr 20 none 5 = emptyRec 5 :=
  C2_processed_false_all_default nlpErr 20 none 5 rfl

/-- Helper: the collected `results` list of the batch loop is empty exactly
when every source row fails field extraction. -/
lemma processRows_eq_nil_iff (nlp : String → Except String Doc) (minLen : Nat)
    (rows : List (Except Unit (Option String × Nat))) :
    processRows nlp minLen rows = [] ↔ rows.all (fun r => isErr r) = true := by
  induction rows with
  | nil => simp [processRows]
  | cons r rs ih =>
    cases r with
    | error u => simpa [processRows, isErr] using ih
    | ok p =>
      obtain ⟨text, cid⟩ := p
      simp [processRows, isErr]

/-- C4 counterexample: a batch whose single record fails the length guard
(so `processed = false` and no record has `processed = true`) does NOT raise —
`run_pipeline` returns the record, because `analyze`'s default record is
appended to `results` and only an empty `results` raises. -/
theorem C4_counterexample :
    runPipeline nlpErr 20 [Except.ok (some "abc", 7)] = Except.ok [emptyRec 7] ∧
    (emptyRec 7).processed = false :=
  ⟨rfl, rfl⟩

/-- C4 amended: `run_pipeline` treats per-record failures as
skip-and-continue, and raises if and only if the batch collected zero records
at all — i.e. every source row failed field extraction before `analyze` was
reached.  Records returned by `analyze` count toward a non-empty batch whether
`processed` is true or false. -/
theorem C4_amended_raise_iff_no_rows (nlp : String → Except String Doc)
    (minLen : Nat) (rows : List (Except Unit (Option String × Nat))) :
    isErr (runPipeline nlp minLen rows) = rows.all (fun r => isErr r) := by
  by_cases h : processRows nlp minLen rows = []
  · have hall := (processRows_eq_nil_iff nlp minLen rows).mp h
    rw [hall]
    simp [runPipeline, h, isErr]
  · have hall : rows.all (fun r => isErr r) = false := by
      rcases hb : rows.all (fun r => isErr r) with _ | _
      · rfl
      · exact absurd ((processRows_eq_nil_iff nlp minLen rows).mpr hb) h
    rw [hall]
    simp [runPipeline, h, isErr]

/-- Helper: the conditional-increment sum of `_find_indicators` is the length
of the filtered token list. -/
lemma findIndicators_eq (d : Doc) :
    findIndicators d =
      (d.toks.filter fun tok => indicatorLemmas.contains (lowerL tok.lemma_)).length := by
  simpa [findIndicators] using
    foldl_count (fun tok => indicatorLemmas.contains (lowerL tok.lemma_)) d.toks 0

/-- C7: for a processed input, `activity_indicators` is exactly the number of
token occurrences whose (lowered) lemma is a member of the indicator-lemma
list, counting repeats. -/
theorem C7_indicator_count (nlp : String → Except String Doc) (minLen : Nat)
    (t : String) (cid : Nat) (d : Doc) (hne : t ≠ "") (hlen : minLen ≤ t.length)
    (hok : nlp t = Except.ok d) :
    (analyze nlp minLen (some t) cid).activity_indicators =
      (d.toks.filter fun tok => indicatorLemmas.contains (lowerL tok.lemma_)).length := by
  have hg : (t = "" || decide (t.length < minLen)) = false := by
    simp [hne, Nat.not_lt.mpr hlen]
  simp [analyze, hg, hok, findIndicators_eq]

/-- C7 witness: three configured indicator lemmas occurring once each yield
count 3. -/
theorem C7_witness : (analyze nlpInd 20 (some longText) 3).activity_indicators = 3 := by
  have h := C7_indicator_count nlpInd 20 longText 3 docInd (by decide) (by decide) rfl
  rw [h]
  decide

/-- C8 counterexample: `electronics` contains the multi-word entry
«интегральная схема», refuting "every element is a single-lemma term". -/
theorem C8_counterexample :
    "интегральная схема" ∈ electronics ∧ hasSpace "интегральная схема" = true := by
  constructor
  · simp [electronics]
  · rfl

/-- C8 amended: every element of `electronics` and `countries` is a
single-lemma (space-free) term EXCEPT «интегральная схема» in `electronics`
and «китайская народная республика», «южная корея», «юж. корея»,
«соединенные штаты» in `countries`; those five multi-word entries cannot be
matched by the single-token extraction rule. -/
theorem C8_amended_multiword_entries :
    electronics.filter (fun s => hasSpace s) = ["интегральная схема"] ∧
    countries.filter (fun s => hasSpace s) =
      ["китайская народная республика", "южная корея", "юж. корея",
       "соединенные штаты"] := by
  constructor <;> rfl

/-- C10: the `product_mentions` and `mentioned_countries` fields of every
record returned by `analyze` contain no duplicate entries. -/
theorem C10_no_duplicates (nlp : String → Except String Doc) (minLen : Nat)
    (text : Option String) (cid : Nat) :
    (analyze nlp minLen text cid).product_mentions.Nodup ∧
    (analyze nlp minLen text cid).mentioned_countries.Nodup := by
  cases text with
  | none => exact ⟨List.nodup_nil, List.nodup_nil⟩
  | some t =>
    by_cases hg : (t = "" || decide (t.length < minLen)) = true
    · simp [analyze, hg, emptyRec]
    · cases hnlp : nlp t with
      | error e => simp [analyze, hg, hnlp, emptyRec]
      | ok d => simp [analyze, hg, hnlp, extract, List.nodup_dedup]

/-- Helper: the Boolean negation test of `_detect_importer` decides the
claim-side suppression predicate. -/
lemma hasNegBefore_iff (lemmas : List String) (i : Nat) :
    hasNegBefore lemmas i = true ↔ NegatedAt lemmas i := by
  simp [hasNegBefore, NegatedAt]

/-- Helper: `hasNegBefore` is false exactly when the occurrence is not
suppressed. -/
lemma hasNegBefore_eq_false (lemmas : List String) (i : Nat) :
    hasNegBefore lemmas i = false ↔ ¬ NegatedAt lemmas i := by
  rw [← hasNegBefore_iff]
  cases hasNegBefore lemmas i <;> simp

/-- Helper: the enumerate-scan of `_detect_importer` finds an unsuppressed
exact lemma match iff one exists. -/
lemma unsuppressedMatch_iff (lemmas : List String) (kw : String) :
    unsuppressedMatch lemmas kw = true ↔
      ∃ i, i < lemmas.length ∧ lemmas.getD i "" = lowerL kw ∧
        ¬ NegatedAt lemmas i := by
  simp [unsuppressedMatch, hasNegBefore_eq_false]

/-- Helper: the per-keyword branch of `_detect_importer` (substring test for
multi-word keywords, negation-aware lemma scan for single-word ones). -/
lemma perKeyword_iff (sent : Sentence) (kw : String) :
    (if hasSpace kw then substrMem kw sent.text
     else unsuppressedMatch (sentLemmas sent) kw) = true ↔
      ((hasSpace kw = true ∧ kw.toList <:+: sent.text.toList) ∨
       (hasSpace kw = false ∧
         ∃ i, i < (sentLemmas sent).length ∧
           (sentLemmas sent).getD i "" = lowerL kw ∧
           ¬ NegatedAt (sentLemmas sent) i)) := by
  by_cases h : hasSpace kw
  · simp [h, substrMem]
  · have h' : hasSpace kw = false := by simpa using h
    simp [h', unsuppressedMatch_iff]

/-- Helper: `_detect_importer` is a pure existential over
(sentence, keyword, position) matches. -/
lemma detectImporterWith_iff (kws : List String) (sents : List Sentence) :
    detectImporterWith kws sents = true ↔ ImporterEvidence kws sents := by
  unfold detectImporterWith ImporterEvidence
  simp only [List.any_eq_true]
  refine exists_congr fun sent => and_congr_right fun _ => ?_
  refine exists_congr fun kw => and_congr_right fun _ => ?_
  exact perKeyword_iff sent kw

/-- C3: `_detect_importer` returns true iff some sentence holds either a
multi-word keyword as a substring of its raw text, or a single-word keyword
lemma occurrence that is not suppressed — suppression meaning that one of the
one or two immediately preceding lemmas of the same sentence is a negation
lemma.  In particular the result is false when every occurrence is suppressed
and no multi-word phrase matches, and true as soon as one unsuppressed
occurrence exists. -/
theorem C3_negation_suppression (sents : List Sentence) :
    detectImporterWith impKws sents = true ↔
      ∃ sent ∈ sents, ∃ kw ∈ impKws,
        (hasSpace kw = true ∧ kw.toList <:+: sent.text.toList) ∨
        (hasSpace kw = false ∧
          ∃ i, i < (sentLemmas sent).length ∧
            (sentLemmas sent).getD i "" = lowerL kw ∧
            ¬ NegatedAt (sentLemmas sent) i) :=
  detectImporterWith_iff impKws sents

/-- C3 witness: «мы не импортируем» (only occurrence suppressed) yields
false; «мы импортируем» (unsuppressed occurrence) yields true, derived by
applying the characterisation at the concrete sentence. -/
theorem C3_witness :
    detectImporterWith impKws [sentNeg] = false ∧
    detectImporterWith impKws [sentPos] = true := by
  constructor
  · decide
  · exact (C3_negation_suppression [sentPos]).mpr
      ⟨sentPos, by simp, "импортировать", by simp [impKws],
       Or.inr ⟨rfl, 1, by decide, by decide, by decide⟩⟩

/-- C9: the Boolean importer-detection result is invariant under permuting
the keyword list and the sentence order. -/
theorem C9_order_independence (kws kws' : List String)
    (sents sents' : List Sentence) (hk : kws.Perm kws')
    (hs : sents.Perm sents') :
    detectImporterWith kws sents = detectImporterWith kws' sents' := by
  have h1 := detectImporterWith_iff kws sents
  have h2 := detectImporterWith_iff kws' sents'
  have hev : ImporterEvidence kws sents ↔ ImporterEvidence kws' sents' := by
    unfold ImporterEvidence
    constructor
    · rintro ⟨sent, hsent, kw, hkw, hrest⟩
      exact ⟨sent, hs.mem_iff.mp hsent, kw, hk.mem_iff.mp hkw, hrest⟩
    · rintro ⟨sent, hsent, kw, hkw, hrest⟩
      exact ⟨sent, hs.mem_iff.mpr hsent, kw, hk.mem_iff.mpr hkw, hrest⟩
  cases hb : detectImporterWith kws sents with
  | true => exact (h2.mpr (hev.mp (h1.mp hb))).symm
  | false =>
    cases hb' : detectImporterWith kws' sents' with
    | false => rfl
    | true => exact absurd (h1.mpr (hev.mpr (h2.mp hb'))) (by simp [hb])

/-- C9 witness: a concrete keyword-list reversal and sentence swap leave the
result unchanged. -/
theorem C9_witness :
    detectImporterWith impKws [sentNeg, sentPos] =
      detectImporterWith impKws.reverse [sentPos, sentNeg] :=
  C9_order_independence impKws impKws.reverse [sentNeg, sentPos]
    [sentPos, sentNeg] (List.reverse_perm impKws).symm
    (List.Perm.swap sentPos sentNeg [])

/-- Helper: the sequentially accumulated personalization score of
`generate_email` equals the closed-form weighted sum. -/
lemma generateEmail_score (sc sn po : String) (cd : CompanyData) :
    (generateEmail sc sn po cd).personalization_score = pScore cd := by
  cases h1 : cd.is_importer <;>
    cases h4 : cd.has_financial_indicators <;>
    cases h5 : cd.recent_activity <;>
    by_cases h2 : parseList cd.product_mentions = [] <;>
    by_cases h3 : parseList cd.mentioned_countries = [] <;>
    simp [generateEmail, pScore, h1, h2, h3, h4, h5]

/-- Helper: the subject is `_generate_subject` applied to the importer flag,
the parsed product list and the closed-form score. -/
lemma generateEmail_subject (sc sn po : String) (cd : CompanyData) :
    (generateEmail sc sn po cd).subject =
      generateSubject sc cd.is_importer (parseList cd.product_mentions)
        (pScore cd) := by
  cases h1 : cd.is_importer <;>
    cases h4 : cd.has_financial_indicators <;>
    cases h5 : cd.recent_activity <;>
    by_cases h2 : parseList cd.product_mentions = [] <;>
    by_cases h3 : parseList cd.mentioned_countries = [] <;>
    simp [generateEmail, pScore, h1, h2, h3, h4, h5]

/-- Helper: the body is `_generate_body` at the closed-form score (for the
internally computed display name and facts list). -/
lemma generateEmail_body (sc sn po : String) (cd : CompanyData) :
    ∃ nm fs, (generateEmail sc sn po cd).body =
      generateBody sc sn po nm fs (pScore cd) := by
  cases h1 : cd.is_importer <;>
    cases h4 : cd.has_financial_indicators <;>
    cases h5 : cd.recent_activity <;>
    by_cases h2 : parseList cd.product_mentions = [] <;>
    by_cases h3 : parseList cd.mentioned_countries = [] <;>
    (simp only [generateEmail, pScore, h1, h2, h3, h4, h5, if_true, if_false,
      ne_eq, not_true_eq_false, not_false_eq_true, ite_true, ite_false,
      Bool.false_eq_true, Bool.true_eq_false]
     exact ⟨_, _, rfl⟩)

/-- Helper: a middle factor of a five-part concatenation is an infix. -/
lemma middle_infix (g i vp c s : String) :
    vp.toList <:+: (g ++ i ++ vp ++ c ++ s).toList :=
  ⟨g.toList ++ i.toList, c.toList ++ s.toList, by
    simp [String.data_append, List.append_assoc]⟩

/-- Helper: the value proposition selected by the score thresholds is an
infix of the generated body. -/
lemma generateBody_vp_infix (sc sn po nm : String) (fs : List String)
    (score : Nat) :
    (if 5 ≤ score then vpHigh sc po
     else if 3 ≤ score then vpMid sc po else vpLow sc po).toList <:+:
      (generateBody sc sn po nm fs score).toList := by
  simp only [generateBody]
  exact middle_infix _ _ _ _ _

/-- C5 counterexample: two records with the same personalization score 3
receive subjects from different branches — the importer-only record gets the
importer subject while the product-plus-financial record (score 2+1 = 3 ≥ 3)
falls through to the fully generic subject — so the subject branch is NOT
selected by the score≥5/score≥3 thresholds. -/
theorem C5_counterexample :
    (generateEmail defSender defName defOffer cdImpOnly).personalization_score = 3 ∧
    (generateEmail defSender defName defOffer cdProdFin).personalization_score = 3 ∧
    (generateEmail defSender defName defOffer cdImpOnly).subject =
      "Решения для импортёров. Снижение затрат до 20%" ∧
    (generateEmail defSender defName defOffer cdProdFin).subject =
      "Предложение от Ваша Компания" ∧
    (generateEmail defSender defName defOffer cdImpOnly).subject ≠
      (generateEmail defSender defName defOffer cdProdFin).subject := by
  refine ⟨rfl, rfl, rfl, rfl, by decide⟩

/-- C5 amended: the personalization score is the weighted sum
3·[importer] + 2·[products] + 2·[countries] + 1·[financial] + 1·[recent];
the BODY branch is selected by the thresholds score≥5 and score≥3
(progressively more generic below each); the SUBJECT branch is selected by
score≥5 and otherwise by the importer flag (not by score≥3); the record with
`is_importer=true` and one product scores exactly 5 and selects the
high-personalization branch. -/
theorem C5_amended_score_and_branches (sc sn po : String) (cd : CompanyData) :
    (generateEmail sc sn po cd).personalization_score = pScore cd ∧
    (generateEmail sc sn po cd).subject =
      generateSubject sc cd.is_importer (parseList cd.product_mentions)
        (pScore cd) ∧
    (5 ≤ pScore cd →
      (vpHigh sc po).toList <:+: (generateEmail sc sn po cd).body.toList) ∧
    (3 ≤ pScore cd → pScore cd < 5 →
      (vpMid sc po).toList <:+: (generateEmail sc sn po cd).body.toList) ∧
    (pScore cd < 3 →
      (vpLow sc po).toList <:+: (generateEmail sc sn po cd).body.toList) ∧
    pScore cdEx = 5 ∧
    (generateEmail defSender defName defOffer cdEx).subject =
      "Оптимизация поставок чип. Персональное предложение" := by
  obtain ⟨nm, fs, hb⟩ := generateEmail_body sc sn po cd
  refine ⟨generateEmail_score sc sn po cd, generateEmail_subject sc sn po cd,
    ?_, ?_, ?_, by decide, rfl⟩
  · intro h
    have hi := generateBody_vp_infix sc sn po nm fs (pScore cd)
    rw [if_pos h] at hi
    rw [hb]
    exact hi
  · intro h3 h5
    have hi := generateBody_vp_infix sc sn po nm fs (pScore cd)
    rw [if_neg (Nat.not_le.mpr h5), if_pos h3] at hi
    rw [hb]
    exact hi
  · intro h3
    have hi := generateBody_vp_infix sc sn po nm fs (pScore cd)
    rw [if_neg (Nat.not_le.mpr (Nat.lt_of_lt_of_le h3 (by decide))),
        if_neg (Nat.not_le.mpr h3)] at hi
    rw [hb]
    exact hi

/-- C5 witness: the worked example scores 5 and its body carries the
high-personalization value proposition. -/
theorem C5_witness :
    5 ≤ pScore cdEx ∧
    (vpHigh defSender defOffer).toList <:+:
      (generateEmail defSender defName defOffer cdEx).body.toList := by
  have h := C5_amended_score_and_branches defSender defName defOffer cdEx
  exact ⟨by decide, h.2.2.1 (by decide)⟩

/-- Helper: every character of a `", "`-join comes from an element or is a
comma or a space. -/
lemma joinChars_chars {c : Char} {L : List (List Char)}
    (h : c ∈ joinChars L) : (∃ x ∈ L, c ∈ x) ∨ c = ',' ∨ c = ' ' := by
  induction L with
  | nil => simp [joinChars] at h
  | cons x xs ih =>
    cases xs with
    | nil =>
      simp only [joinChars] at h
      exact Or.inl ⟨x, List.mem_cons_self x [], h⟩
    | cons y ys =>
      have hh : c ∈ x ∨ c = ',' ∨ c = ' ' ∨ c ∈ joinChars (y :: ys) := by
        have he : joinChars (x :: y :: ys) =
            x ++ ',' :: ' ' :: joinChars (y :: ys) := rfl
        rw [he] at h
        simpa using h
      rcases hh with h1 | h1 | h1 | h1
      · exact Or.inl ⟨x, by simp, h1⟩
      · exact Or.inr (Or.inl h1)
      · exact Or.inr (Or.inr h1)
      · rcases ih h1 with ⟨z, hz, hcz⟩ | h'
        · exact Or.inl ⟨z, List.mem_cons_of_mem x hz, hcz⟩
        · exact Or.inr h'

/-- Helper: the join of a cons starts with its first element. -/
lemma joinChars_cons (x : List Char) (xs : List (List Char)) :
    ∃ r, joinChars (x :: xs) = x ++ r := by
  cases xs with
  | nil => exact ⟨[], by simp [joinChars]⟩
  | cons y ys => exact ⟨_, rfl⟩

/-- Helper: `split(',')` never returns the empty list. -/
lemma splitOnComma_ne_nil (s : List Char) : splitOnComma s ≠ [] := by
  induction s with
  | nil => simp [splitOnComma]
  | cons c cs ih =>
    by_cases hc : c = ','
    · simp [splitOnComma, hc]
    · cases h : splitOnComma cs with
      | nil => exact absurd h ih
      | cons t ts => simp [splitOnComma, hc, h]

/-- Helper: a comma-free string is returned whole by `split(',')`. -/
lemma splitOnComma_no_comma {s : List Char} (h : ',' ∉ s) :
    splitOnComma s = [s] := by
  induction s with
  | nil => rfl
  | cons c cs ih =>
    have hc : c ≠ ',' := fun hc => h (hc ▸ List.mem_cons_self c cs)
    have hcs : ',' ∉ cs := fun hm => h (List.mem_cons_of_mem c hm)
    simp [splitOnComma, hc, ih hcs]

/-- Helper: splitting at the first comma after a comma-free prefix. -/
lemma splitOnComma_append {l₁ l₂ : List Char} (h : ',' ∉ l₁) :
    splitOnComma (l₁ ++ ',' :: l₂) = l₁ :: splitOnComma l₂ := by
  induction l₁ with
  | nil => simp [splitOnComma]
  | cons c cs ih =>
    have hc : c ≠ ',' := fun hc => h (hc ▸ List.mem_cons_self c cs)
    have hcs : ',' ∉ cs := fun hm => h (List.mem_cons_of_mem c hm)
    simp [splitOnComma, hc, ih hcs]

/-- Helper: prepending a non-comma character extends the first segment. -/
lemma splitOnComma_cons_of_ne {c : Char} (hc : c ≠ ',') (s : List Char)
    {t : List Char} {ts : List (List Char)} (h : splitOnComma s = t :: ts) :
    splitOnComma (c :: s) = (c :: t) :: ts := by
  simp [splitOnComma, hc, h]

/-- Helper: splitting a `", "`-join of comma-free elements recovers the
elements, with a leading space on all but the first. -/
lemma splitOnComma_joinChars {xs : List (List Char)} (x : List Char)
    (hx : ',' ∉ x) (hxs : ∀ y ∈ xs, ',' ∉ y) :
    splitOnComma (joinChars (x :: xs)) = x :: xs.map (fun t => ' ' :: t) := by
  induction xs generalizing x with
  | nil => simpa [joinChars] using splitOnComma_no_comma hx
  | cons y ys ih =>
    have hy : ',' ∉ y := hxs y (by simp)
    have hys : ∀ z ∈ ys, ',' ∉ z := fun z hz => hxs z (by simp [hz])
    have h1 := ih y hy hys
    have h2 := splitOnComma_cons_of_ne (by decide : (' ' : Char) ≠ ',') _ h1
    calc splitOnComma (joinChars (x :: y :: ys))
        = splitOnComma (x ++ ',' :: ' ' :: joinChars (y :: ys)) := rfl
      _ = x :: splitOnComma (' ' :: joinChars (y :: ys)) :=
          splitOnComma_append hx
      _ = x :: (' ' :: y) :: ys.map (fun t => ' ' :: t) := by rw [h2]
      _ = x :: (y :: ys).map (fun t => ' ' :: t) := by simp

/-- Helper: `strip()` ignores one leading space. -/
lemma pyStrip_cons_space (t : List Char) : pyStrip (' ' :: t) = pyStrip t := by
  have hw : Char.isWhitespace ' ' = true := rfl
  simp [pyStrip, List.dropWhile_cons, hw]

/-- Helper: `dropWhile` is the identity when no element satisfies the
predicate. -/
lemma dropWhile_eq_self_of_all {p : Char → Bool} {l : List Char}
    (h : ∀ c ∈ l, p c = false) : l.dropWhile p = l := by
  cases l with
  | nil => rfl
  | cons c cs => simp [List.dropWhile_cons, h c (by simp)]

/-- Helper: `strip("[]")` is the identity on bracket-free strings. -/
lemma stripBrackets_eq_self {l : List Char}
    (h : ∀ c ∈ l, (c = '[' || c = ']') = false) : stripBrackets l = l := by
  unfold stripBrackets
  rw [dropWhile_eq_self_of_all h,
    dropWhile_eq_self_of_all fun c hc => h c (List.mem_reverse.mp hc),
    List.reverse_reverse]

/-- Helper: rebuilding a string from its character list. -/
lemma strMk_toList (s : String) : String.mk s.toList = s := rfl

/-- Helper: the round trip `_parse_list ∘ ", ".join` is the identity on lists
of clean elements (non-empty, free of commas, quotes and brackets, fixed by
`strip()`). -/
lemma parseList_pyJoin (l : List String) (h : ∀ x ∈ l, CleanElem x.toList) :
    parseList (pyJoin l) = l := by
  cases l with
  | nil => rfl
  | cons x xs =>
    have hclean : ∀ y ∈ (x :: xs).map String.toList, CleanElem y := by
      intro y hy
      obtain ⟨z, hz, rfl⟩ := List.mem_map.mp hy
      exact h z hz
    have hxc : CleanElem x.toList := h x (by simp)
    have hnc : ∀ y ∈ (x :: xs).map String.toList, ',' ∉ y := by
      intro y hy hmem
      exact (hclean y hy).2.1 ',' hmem (Or.inl rfl)
    have hchars : ∀ c ∈ joinChars ((x :: xs).map String.toList),
        ¬(c = ',' ∨ c = '\'' ∨ c = '"' ∨ c = '[' ∨ c = ']') ∨ c = ',' ∨ c = ' ' := by
      intro c hc
      rcases joinChars_chars hc with ⟨z, hz, hcz⟩ | h' | h'
      · exact Or.inl ((hclean z hz).2.1 c hcz)
      · exact Or.inr (Or.inl h')
      · exact Or.inr (Or.inr h')
    have hnb : ∀ c ∈ joinChars ((x :: xs).map String.toList),
        (c = '[' || c = ']') = false := by
      intro c hc
      rcases hchars c hc with h' | h' | h' <;>
        simp_all
    have hnq : ∀ c ∈ joinChars ((x :: xs).map String.toList),
        (!(c = '\'' || c = '"')) = true := by
      intro c hc
      rcases hchars c hc with h' | h' | h' <;>
        simp_all
    obtain ⟨r, hr⟩ := joinChars_cons x.toList (xs.map String.toList)
    have hJne : joinChars ((x :: xs).map String.toList) ≠ [] := by
      rw [List.map_cons] at *
      rw [hr]
      intro hcon
      exact hxc.1 (List.append_eq_nil.mp hcon).1
    have hJnbr : joinChars ((x :: xs).map String.toList) ≠ ['[', ']'] := by
      intro hcon
      have : ('[' : Char) ∈ joinChars ((x :: xs).map String.toList) := by
        rw [hcon]
        simp
      have := hnb '[' this
      simp at this
    -- reduce the round trip to the characters of the join
    show List.map String.mk
        (parseListChars (joinChars ((x :: xs).map String.toList))) = x :: xs
    rw [parseListChars, if_neg (by simpa using And.intro hJne hJnbr)]
    rw [stripBrackets_eq_self hnb, List.filter_eq_self.mpr hnq]
    rw [List.map_cons,
      splitOnComma_joinChars x.toList
        (fun hm => hxc.2.1 ',' hm (Or.inl rfl) : ',' ∉ x.toList)
        (fun y hy => hnc y (by simp [hy]))]
    have hstrip : ∀ y ∈ xs.map String.toList, pyStrip (' ' :: y) = y := by
      intro y hy
      rw [pyStrip_cons_space]
      exact (hclean y (by simp [List.mem_cons_of_mem, hy])).2.2
    rw [List.map_cons, hxc.2.2, List.map_map]
    have hmap : (xs.map String.toList).map (pyStrip ∘ fun t => ' ' :: t) =
        xs.map String.toList :=
      calc (xs.map String.toList).map (pyStrip ∘ fun t => ' ' :: t)
          = (xs.map String.toList).map (fun y => y) := by
            refine List.map_congr_left fun y hy => ?_
            simp only [Function.comp_apply]
            exact hstrip y hy
        _ = xs.map String.toList := by simp
    rw [hmap]
    have hne : ∀ y ∈ x.toList :: xs.map String.toList, y ≠ [] := by
      intro y hy
      rcases List.mem_cons.mp hy with rfl | hy'
      · exact hxc.1
      · exact (hclean y (by simp [hy'])).1
    rw [List.filter_eq_self.mpr fun y hy => by simpa using hne y hy]
    rw [List.map_cons, strMk_toList, List.map_map]
    have hid : (xs.map (String.mk ∘ String.toList)) = xs :=
      calc xs.map (String.mk ∘ String.toList)
          = xs.map (fun y => y) := by
            refine List.map_congr_left fun y _ => ?_
            simp only [Function.comp_apply]
            exact strMk_toList y
        _ = xs := by simp
    rw [hid]

/-- Helper: every configured electronics keyword survives the round trip. -/
lemma electronics_clean : ∀ x ∈ electronics, CleanElem x.toList := by decide

/-- Helper: every configured country keyword survives the round trip. -/
lemma countries_clean : ∀ x ∈ countries, CleanElem x.toList := by decide

/-- Helper: `_extract` only returns members of its key list. -/
lemma extract_subset {d : Doc} {keys : List String} {x : String}
    (hx : x ∈ extract d keys) : x ∈ keys := by
  have h1 := List.mem_dedup.mp hx
  have h2 := List.mem_filter.mp h1
  simpa using h2.2

/-- C6: serialising either list field of any record returned by `analyze`
with the pipeline's `", ".join` and parsing it back with the templater's
`_parse_list` yields the original list exactly (hence the same set),
including the empty-list case. -/
theorem C6_roundtrip (nlp : String → Except String Doc) (minLen : Nat)
    (text : Option String) (cid : Nat) :
    parseList (pyJoin (analyze nlp minLen text cid).product_mentions) =
      (analyze nlp minLen text cid).product_mentions ∧
    parseList (pyJoin (analyze nlp minLen text cid).mentioned_countries) =
      (analyze nlp minLen text cid).mentioned_countries := by
  have hmain : ∀ (keys : List String), (∀ x ∈ keys, CleanElem x.toList) →
      ∀ d : Doc, parseList (pyJoin (extract d keys)) = extract d keys := by
    intro keys hk d
    exact parseList_pyJoin _ fun x hx => hk x (extract_subset hx)
  cases text with
  | none => exact ⟨rfl, rfl⟩
  | some t =>
    by_cases hg : (t = "" || decide (t.length < minLen)) = true
    · constructor <;> simp [analyze, hg, emptyRec] <;> rfl
    · cases hnlp : nlp t with
      | error e => constructor <;> simp [analyze, hg, hnlp, emptyRec] <;> rfl
      | ok d =>
        constructor <;> simp only [analyze, hg, hnlp, Bool.false_eq_true,
          if_false]
        · exact hmain electronics electronics_clean d
        · exact hmain countries countries_clean d

end LeadGen
